import Mathlib

/-!
Verification of the gapic-showcase server core (`server/showcase.go`):
the Echo streaming protocols (Expand, Collect), the Timeout simulator,
the scripted-retry sequencer (SetupRetry / Retry) and the Pagination engine.

Go machine integers (`int32` for the pagination request fields, `int64` for
durations and Unix timestamps) are modelled as `Int` with explicit two's
complement wrapping (`wrap32`, `wrap64`) at the points where the Go code
performs a conversion or an arithmetic operation on the fixed-width type.
`strconv.Atoi` / `strconv.Itoa` are modelled character-by-character.
-/

namespace Showcase

/-- A `google.rpc.Status` proto: a (code, message) pair.  Code 0 is `codes.OK`. -/
structure RStatus where
  code : Int
  message : String
deriving DecidableEq

/-- `status.ErrorProto`: `nil` for an absent descriptor or one whose code is
`codes.OK`; otherwise the descriptor itself as the call's error. -/
def goErrorProto : Option RStatus → Option RStatus
  | none => none
  | some s => if s.code = 0 then none else some s

/-! ### Decimal rendering and parsing (`strconv.Itoa` / `strconv.Atoi`) -/

/-- The ASCII digit character for `d` (`0 ≤ d ≤ 9`). -/
def digitChar (d : Nat) : Char := Char.ofNat (48 + d)

/-- The numeric value of an ASCII digit character. -/
def digitVal (c : Char) : Nat := c.toNat - 48

/-- Whether `c` is an ASCII digit, as in Go's per-character check. -/
def isDigitChar (c : Char) : Bool := decide (48 ≤ c.toNat ∧ c.toNat ≤ 57)

/-- Big-endian decimal digits of `n`; `fuel` bounds the recursion and any
`fuel ≥ n` is enough.  `natToCharsAux fuel 0 = []`. -/
def natToCharsAux : Nat → Nat → List Char
  | 0, _ => []
  | fuel + 1, n => if n = 0 then [] else natToCharsAux fuel (n / 10) ++ [digitChar (n % 10)]

/-- Big-endian decimal digits of `n` (empty for `0`). -/
def natToChars (n : Nat) : List Char := natToCharsAux n n

/-- Decimal rendering of a natural number, `"0"` included. -/
def natToChars0 (n : Nat) : List Char := if n = 0 then [Char.ofNat 48] else natToChars n

/-- `strconv.Itoa`: decimal rendering of an integer, with a leading minus sign
for negative values. -/
def goItoa (n : Int) : String :=
  if n < 0 then ⟨Char.ofNat 45 :: natToChars0 (-n).toNat⟩ else ⟨natToChars0 n.toNat⟩

/-- The value of a big-endian ASCII digit string. -/
def charsVal (cs : List Char) : Nat := cs.foldl (fun a c => a * 10 + digitVal c) 0

/-- Parse a non-empty all-digit character list as a natural number. -/
def parseNatChars (cs : List Char) : Option Nat :=
  if cs = [] then none
  else if cs.all isDigitChar then some (charsVal cs)
  else none

/-- Largest `int64` value. -/
def int64Max : Int := 9223372036854775807

/-- `strconv.Atoi` (= `ParseInt(s, 10, 64)` on a 64-bit platform): an optional
sign followed by one or more ASCII digits; values outside the `int64` range
are a range error, which like a syntax error yields `none`. -/
def goAtoi (s : String) : Option Int :=
  match s.data with
  | [] => none
  | c :: rest =>
    if c = Char.ofNat 43 then
      (parseNatChars rest).bind fun n => if (n : Int) ≤ int64Max then some (n : Int) else none
    else if c = Char.ofNat 45 then
      (parseNatChars rest).bind fun n => if (n : Int) ≤ int64Max + 1 then some (-(n : Int)) else none
    else
      (parseNatChars (c :: rest)).bind fun n => if (n : Int) ≤ int64Max then some (n : Int) else none

/-- Two's complement wrap of an integer to `int32`, as in Go's `int32(x)`
conversion and `int32` arithmetic. -/
def wrap32 (n : Int) : Int := (n + 2 ^ 31) % 2 ^ 32 - 2 ^ 31

/-- Two's complement wrap of an integer to `int64`. -/
def wrap64 (n : Int) : Int := (n + 2 ^ 63) % 2 ^ 64 - 2 ^ 63

/-! ### Errors returned by the handlers -/

/-- The failure outcomes a handler can produce: the two gRPC validation codes
the showcase server uses, a caller-injected status surfaced verbatim, and the
(unreachable, see `retry_store_invariant`) index-out-of-range panic Go would
raise on `resps[0]` if an empty outcome list were ever stored. -/
inductive CallErr where
  | invalidArgument (msg : String)
  | notFound (msg : String)
  | injected (s : RStatus)
  | emptyQueuePanic
deriving DecidableEq

/-! ### Echo message shape and the streaming protocols -/

/-- An `EchoRequest`: a content string plus an optional injected status. -/
structure EchoMsg where
  content : String
  error : Option RStatus
deriving DecidableEq

/-- Go `unicode.IsSpace`: the White_Space code points. -/
def goIsSpace (c : Char) : Bool :=
  [9, 10, 11, 12, 13, 32, 0x85, 0xA0, 0x1680, 0x2000, 0x2001, 0x2002, 0x2003, 0x2004,
    0x2005, 0x2006, 0x2007, 0x2008, 0x2009, 0x200A, 0x2028, 0x2029, 0x202F, 0x205F,
    0x3000].contains c.toNat

/-- Core of `strings.Fields`: split around maximal runs of white space,
accumulating the current word in reverse in `acc`. -/
def fieldsAux : List Char → List Char → List String
  | [], [] => []
  | [], acc => [⟨acc.reverse⟩]
  | c :: rest, acc =>
    if goIsSpace c then
      if acc = [] then fieldsAux rest [] else ⟨acc.reverse⟩ :: fieldsAux rest []
    else fieldsAux rest (c :: acc)

/-- `strings.Fields`: the white-space-separated words of `s`, in order. -/
def goFields (s : String) : List String := fieldsAux s.data []

/-- An observable event on a server stream: a sent response message, a clean
close, or a close with an error status. -/
inductive StreamEvent where
  | sent (content : String)
  | closeOk
  | closeErr (s : RStatus)
deriving DecidableEq

/-- The send loop of `Expand`: one `stream.Send` per word, in order. -/
def expandLoop : List String → List StreamEvent
  | [] => []
  | w :: ws => .sent w :: expandLoop ws

/-- `ShowcaseServer.Expand`: send one message per field of the content, then
close with the injected error if one is present (`status.ErrorProto` of an
OK-code descriptor is `nil`, hence a clean close). -/
def expand (req : EchoMsg) : List StreamEvent :=
  expandLoop (goFields req.content) ++
    [match goErrorProto req.error with
     | some s => .closeErr s
     | none => .closeOk]

/-- The receive loop of `ShowcaseServer.Collect`: `resp` is the accumulated
slice of non-empty contents; end of the message list is `io.EOF`, answered by
`SendAndClose` of the space-joined accumulation; a message whose status
converts to a non-nil error aborts with that status. -/
def collectLoop (msgs : List EchoMsg) (resp : List String) : Except RStatus String :=
  match msgs with
  | [] => .ok (String.intercalate " " resp)
  | req :: rest =>
    match goErrorProto req.error with
    | some s => .error s
    | none =>
      collectLoop rest (if req.content ≠ "" then resp ++ [req.content] else resp)

/-- `ShowcaseServer.Collect` on a complete inbound message sequence. -/
def collect (msgs : List EchoMsg) : Except RStatus String := collectLoop msgs []

/-! ### Timeout simulator -/

/-- A `google.protobuf.Duration` message. -/
structure DurationPB where
  seconds : Int
  nanos : Int
deriving DecidableEq

/-- `ptypes.Duration`: validate the proto and convert it to `time.Duration`
nanoseconds; every failure path returns the zero duration alongside the
error.  `int64` overflow of `seconds * 1e9` is caught by the division check. -/
def goDuration (p : Option DurationPB) : Except String Int :=
  match p with
  | none => .error "duration: nil Duration"
  | some dd =>
    if dd.seconds < -315576000000 ∨ 315576000000 < dd.seconds then
      .error "duration: seconds out of range"
    else if dd.nanos ≤ -1000000000 ∨ 1000000000 ≤ dd.nanos then
      .error "duration: nanos out of range"
    else if (dd.seconds < 0 ∧ 0 < dd.nanos) ∨ (0 < dd.seconds ∧ dd.nanos < 0) then
      .error "duration: seconds and nanos have different signs"
    else
      let d := wrap64 (dd.seconds * 1000000000)
      if Int.tdiv d 1000000000 ≠ dd.seconds then
        .error "duration: out of range for time.Duration"
      else if dd.nanos ≠ 0 then
        let d2 := wrap64 (d + dd.nanos)
        if (decide (d2 < 0)) ≠ (decide (dd.nanos < 0)) then
          .error "duration: out of range for time.Duration"
        else .ok d2
      else .ok d

/-- A `TimeoutRequest`: requested delay plus the desired response
(an injected error or a success payload). -/
structure TimeoutRequest where
  responseDelay : Option DurationPB
  error : Option RStatus
  success : Option String
deriving DecidableEq

/-- `ShowcaseServer.Timeout`: the slept duration (a failed parse is discarded,
its zero result is slept) paired with Go's `(response, error)` return pair. -/
def timeout (req : TimeoutRequest) : Int × (Option String × Option RStatus) :=
  let d := match goDuration req.responseDelay with
    | .ok v => v
    | .error _ => 0
  (d, if req.error.isSome then (none, goErrorProto req.error) else (req.success, none))

/-! ### Retry sequencer -/

/-- The retry table: `nil`-map lookups in Go return the zero value, so the
empty table and a `nil` map behave alike and the table is a total function to
`Option`. -/
def RetryStore : Type := String → Option (List RStatus)

/-- The empty retry table. -/
def emptyStore : RetryStore := fun _ => none

/-- The id `SetupRetry` generates: `fmt.Sprintf("retry-test-%d", now.UTC().Unix())`. -/
def retryId (now : Int) : String := "retry-test-" ++ goItoa now

/-- `ShowcaseServer.SetupRetry`: reject an absent or empty outcome list,
otherwise store the list verbatim under the time-derived id. -/
def setupRetry (st : RetryStore) (now : Int) (resps : List RStatus) :
    RetryStore × Except CallErr String :=
  if resps = [] then
    (st, .error (.invalidArgument "A list of responses must be specified."))
  else
    ((fun id2 => if id2 = retryId now then some resps else st id2), .ok (retryId now))

/-- `ShowcaseServer.Retry`: pop the head outcome of the queue stored under
`id`; an OK head deletes the entry and succeeds; otherwise the entry is
deleted when the remainder is empty and stored back when not, and the popped
outcome is returned as the error. -/
def retryStep (st : RetryStore) (id : String) : RetryStore × Except CallErr Unit :=
  if id = "" then
    (st, .error (.invalidArgument "An Id must be specified."))
  else
    match st id with
    | none => (st, .error (.notFound ("Retry with Id: " ++ id ++ " was not found.")))
    | some [] => (st, .error .emptyQueuePanic)
    | some (resp :: rest) =>
      if resp.code = 0 then
        ((fun id2 => if id2 = id then none else st id2), .ok ())
      else if rest = [] then
        ((fun id2 => if id2 = id then none else st id2), .error (.injected resp))
      else
        ((fun id2 => if id2 = id then some rest else st id2), .error (.injected resp))

/-- The results of `n` successive `Retry(id)` calls, threading the store. -/
def retrySeq (st : RetryStore) (id : String) : Nat → List (Except CallErr Unit)
  | 0 => []
  | n + 1 => (retryStep st id).2 :: retrySeq (retryStep st id).1 id n

/-- The retry tables reachable from the empty table by any interleaving of
`SetupRetry` and `Retry` calls. -/
inductive Reachable : RetryStore → Prop where
  | init : Reachable emptyStore
  | setup (now : Int) (resps : List RStatus) {st : RetryStore} :
      Reachable st → Reachable (setupRetry st now resps).1
  | retry (id : String) {st : RetryStore} :
      Reachable st → Reachable (retryStep st id).1

/-- The retry-table invariant: an id is present exactly while its queue still
holds at least one unconsumed outcome, i.e. no stored queue is ever empty
(the converse direction — a non-empty queue means the entry is present — is
definitional, since a queue only exists as the value of a present entry). -/
def StoreInv (st : RetryStore) : Prop := ∀ id q, st id = some q → q ≠ []

/-! ### Pagination engine -/

/-- A `PaginationRequest`; the three numeric fields are proto `int32`. -/
structure PaginationRequest where
  pageSize : Int
  pageSizeOverride : Int
  pageToken : String
  maxResponse : Int
deriving DecidableEq

/-- A `PaginationResponse`. -/
structure PaginationResponse where
  responses : List Int
  nextPageToken : String
deriving DecidableEq

/-- The integer sequence `[a, b)` (empty when `b ≤ a`), as the Go loop
`for i := start; i < end; i++ { page = append(page, i) }` produces it. -/
def intRange (a b : Int) : List Int := (List.range (b - a).toNat).map fun i => a + Int.ofNat i

/-- The invalid-page-token error, with the offending token interpolated. -/
def tokenErr (tok : String) : CallErr :=
  .invalidArgument ("Invalid page token: " ++ tok ++
    ". Token must be within the range [0, request.MaxResponse]")

/-- Token decoding in `ShowcaseServer.Pagination`: empty token means start 0;
otherwise `strconv.Atoi` then the Go `int32` conversion, rejecting a parse
error or a truncated value outside `[0, maxResponse]`. -/
def tokenDecode (tok : String) (maxResponse : Int) : Except CallErr Int :=
  if tok = "" then .ok 0
  else
    match goAtoi tok with
    | none => .error (tokenErr tok)
    | some t =>
      if wrap32 t < 0 ∨ maxResponse < wrap32 t then .error (tokenErr tok)
      else .ok (wrap32 t)

/-- `actualSize`: the override if positive, else the page size. -/
def effSize (pageSize pageSizeOverride : Int) : Int :=
  if 0 < pageSizeOverride then pageSizeOverride else pageSize

/-- The window end computed by `ShowcaseServer.Pagination`: `start + actualSize`
in `int32` arithmetic, replaced by `maxResponse` when `actualSize = 0`, then
clamped from above to `maxResponse`. -/
def pagEnd (pageSize pageSizeOverride maxResponse start : Int) : Int :=
  let a := effSize pageSize pageSizeOverride
  let e1 := wrap32 (start + a)
  let e2 := if a = 0 then maxResponse else e1
  if maxResponse < e2 then maxResponse else e2

/-- `ShowcaseServer.Pagination`. -/
def paginate (req : PaginationRequest) : Except CallErr PaginationResponse :=
  if req.pageSize < 0 ∨ req.pageSizeOverride < 0 then
    .error (.invalidArgument "The page size provided must not be negative.")
  else if req.maxResponse ≤ 0 then
    .error (.invalidArgument "The maximum response provided must be positive.")
  else
    match tokenDecode req.pageToken req.maxResponse with
    | .error e => .error e
    | .ok start =>
      let e := pagEnd req.pageSize req.pageSizeOverride req.maxResponse start
      .ok ⟨intRange start e, if e < req.maxResponse then goItoa e else ""⟩

/-- Drive `Pagination` as a client would: call with `tok`, stop on an empty
`nextPageToken`, otherwise feed the token back; `none` on an error reply or
on fuel exhaustion. -/
def collectPages (p o m : Int) : Nat → String → Option (List (List Int))
  | 0, _ => none
  | fuel + 1, tok =>
    match paginate ⟨p, o, tok, m⟩ with
    | .error _ => none
    | .ok resp =>
      if resp.nextPageToken = "" then some [resp.responses]
      else (collectPages p o m fuel resp.nextPageToken).map (resp.responses :: ·)

/-! ## Helper lemmas: decimal rendering round-trips through parsing -/

theorem natToCharsAux_zero (fuel : Nat) : natToCharsAux fuel 0 = [] := by
  cases fuel <;> simp [natToCharsAux]

theorem digitChar_facts (d : Nat) (h : d < 10) :
    isDigitChar (digitChar d) = true ∧ digitVal (digitChar d) = d := by
  interval_cases d <;> exact ⟨by decide, by decide⟩

theorem charsVal_append (l : List Char) (c : Char) :
    charsVal (l ++ [c]) = charsVal l * 10 + digitVal c := by
  simp [charsVal, List.foldl_append]

theorem natToCharsAux_spec (fuel : Nat) :
    ∀ n : Nat, n ≠ 0 → n ≤ fuel →
      natToCharsAux fuel n ≠ [] ∧
      (∀ c ∈ natToCharsAux fuel n, isDigitChar c = true) ∧
      charsVal (natToCharsAux fuel n) = n := by
  induction fuel with
  | zero => intro n h0 hle; omega
  | succ fuel ih =>
    intro n h0 hle
    rw [natToCharsAux, if_neg h0]
    by_cases h10 : n / 10 = 0
    · have hn10 : n < 10 := by omega
      have hmod : n % 10 = n := by omega
      rw [h10, natToCharsAux_zero, List.nil_append]
      obtain ⟨hd, hv⟩ := digitChar_facts (n % 10) (by omega)
      refine ⟨by simp, ?_, ?_⟩
      · intro c hc
        simp only [List.mem_singleton] at hc
        rw [hc]; exact hd
      · rw [hmod]
        obtain ⟨_, hv2⟩ := digitChar_facts n hn10
        simp [charsVal, hv2]

    · obtain ⟨hne, hdig, hval⟩ := ih (n / 10) h10 (by omega)
      obtain ⟨hd, hv⟩ := digitChar_facts (n % 10) (by omega)
      refine ⟨by simp, ?_, ?_⟩
      · intro c hc
        rcases List.mem_append.mp hc with h | h
        · exact hdig c h
        · simp only [List.mem_singleton] at h
          rw [h]; exact hd
      · rw [charsVal_append, hval, hv]; omega

theorem natToChars0_spec (n : Nat) :
    natToChars0 n ≠ [] ∧ (∀ c ∈ natToChars0 n, isDigitChar c = true) ∧
      charsVal (natToChars0 n) = n := by
  by_cases h : n = 0
  · subst h; exact ⟨by decide, by decide, by decide⟩
  · rw [natToChars0, if_neg h]
    exact natToCharsAux_spec n n h le_rfl

theorem digit_ne_plus (c : Char) (h : isDigitChar c = true) : ¬(c = Char.ofNat 43) := by
  intro he; subst he; exact absurd h (by decide)

theorem digit_ne_minus (c : Char) (h : isDigitChar c = true) : ¬(c = Char.ofNat 45) := by
  intro he; subst he; exact absurd h (by decide)

theorem parseNatChars_of_digits (cs : List Char) (hne : cs ≠ [])
    (hall : ∀ c ∈ cs, isDigitChar c = true) :
    parseNatChars cs = some (charsVal cs) := by
  rw [parseNatChars, if_neg hne, if_pos (List.all_eq_true.mpr hall)]

theorem goAtoi_goItoa (n : Int) (h1 : -(2 ^ 63) ≤ n) (h2 : n ≤ int64Max) :
    goAtoi (goItoa n) = some n := by
  have hp : -(2 ^ 63 : Int) = -9223372036854775808 := by norm_num
  rw [hp] at h1
  have hI : int64Max = 9223372036854775807 := rfl
  by_cases hn : n < 0
  · obtain ⟨hne, hall, hval⟩ := natToChars0_spec (-n).toNat
    rw [goItoa, if_pos hn]
    show goAtoi ⟨Char.ofNat 45 :: natToChars0 (-n).toNat⟩ = some n
    rw [goAtoi]
    simp only [if_neg (by decide : ¬(Char.ofNat 45 = Char.ofNat 43)), if_pos rfl]
    rw [parseNatChars_of_digits _ hne hall, hval]
    simp only [Option.some_bind]
    have hc : ((((-n).toNat : Nat) : Int)) ≤ int64Max + 1 := by omega
    rw [if_pos hc]
    have hv2 : ((((-n).toNat : Nat) : Int)) = -n := by omega
    rw [hv2, neg_neg]
    exact if_pos trivial
  · obtain ⟨hne, hall, hval⟩ := natToChars0_spec n.toNat
    rw [goItoa, if_neg hn]
    show goAtoi ⟨natToChars0 n.toNat⟩ = some n
    rw [goAtoi]
    rcases hL : natToChars0 n.toNat with _ | ⟨c, rest⟩
    · exact absurd hL hne
    · have hdc : isDigitChar c = true := hall c (by rw [hL]; exact List.mem_cons_self c rest)
      simp only [if_neg (digit_ne_plus c hdc), if_neg (digit_ne_minus c hdc)]
      rw [← hL, parseNatChars_of_digits _ hne hall, hval]
      simp only [Option.some_bind]
      have hc : (((n.toNat : Nat) : Int)) ≤ int64Max := by omega
      rw [if_pos hc]
      have hv2 : (((n.toNat : Nat) : Int)) = n := by omega
      rw [hv2]

theorem goItoa_ne_empty (n : Int) : goItoa n ≠ "" := by
  intro h
  have hd := congrArg String.data h
  rw [goItoa] at hd
  by_cases hn : n < 0
  · rw [if_pos hn] at hd
    exact absurd hd (by simp)
  · rw [if_neg hn] at hd
    exact (natToChars0_spec n.toNat).1 hd

theorem goItoa_inj (n1 n2 : Int) (ha : -(2 ^ 63) ≤ n1) (hb : n1 ≤ int64Max)
    (hc : -(2 ^ 63) ≤ n2) (hd : n2 ≤ int64Max) (h : goItoa n1 = goItoa n2) : n1 = n2 := by
  have := (goAtoi_goItoa n1 ha hb).symm.trans (h ▸ goAtoi_goItoa n2 hc hd)
  exact Option.some.inj this

/-! ## Helper lemmas: `int32` wrapping and integer ranges -/

theorem wrap32_eq_self (n : Int) (h1 : -(2 ^ 31) ≤ n) (h2 : n < 2 ^ 31) : wrap32 n = n := by
  rw [wrap32, Int.emod_eq_of_lt (by omega) (by omega)]
  omega

theorem intRange_append (a b c : Int) (h1 : a ≤ b) (h2 : b ≤ c) :
    intRange a b ++ intRange b c = intRange a c := by
  unfold intRange
  have hn : (c - a).toNat = (b - a).toNat + (c - b).toNat := by omega
  rw [hn, List.range_add, List.map_append, List.map_map]
  congr 1
  apply List.map_congr_left
  intro x hx
  simp only [Function.comp_apply, Int.ofNat_eq_natCast]
  push_cast
  omega

theorem intRange_self (a : Int) : intRange a a = [] := by
  simp [intRange]

theorem intRange_ne_nil (a b : Int) (h : a < b) : intRange a b ≠ [] := by
  intro hc
  have hlen := congrArg List.length hc
  simp only [intRange, List.length_map, List.length_range, List.length_nil] at hlen
  omega

/-! ## Helper lemmas: the pagination engine -/

theorem effSize_nonneg (p o : Int) (hp : 0 ≤ p) (ho : 0 ≤ o) : 0 ≤ effSize p o := by
  rw [effSize]; split <;> omega

theorem pagEnd_spec (p o m s : Int) (hp : 0 ≤ p) (ho : 0 ≤ o) (hs : 0 ≤ s)
    (hnoov : s + effSize p o ≤ 2 ^ 31 - 1) :
    pagEnd p o m s = if effSize p o = 0 then m else min (s + effSize p o) m := by
  have he : 0 ≤ effSize p o := effSize_nonneg p o hp ho
  rw [pagEnd]
  have hw : wrap32 (s + effSize p o) = s + effSize p o :=
    wrap32_eq_self _ (by omega) (by omega)
  simp only [hw]
  split_ifs <;> omega

theorem tokenDecode_empty (m : Int) : tokenDecode "" m = .ok 0 := rfl

theorem tokenDecode_goItoa (s m : Int) (h0 : 0 ≤ s) (hm : s ≤ m) (hm32 : m ≤ 2 ^ 31 - 1) :
    tokenDecode (goItoa s) m = .ok s := by
  rw [tokenDecode, if_neg (goItoa_ne_empty s)]
  have hI : int64Max = 9223372036854775807 := rfl
  simp only [goAtoi_goItoa s (by omega) (by omega)]
  rw [wrap32_eq_self s (by omega) (by omega)]
  rw [if_neg (by omega)]

theorem paginate_ok (p o m : Int) (tok : String) (start : Int)
    (hp : 0 ≤ p) (ho : 0 ≤ o) (hm : 0 < m)
    (htd : tokenDecode tok m = .ok start) :
    paginate ⟨p, o, tok, m⟩ =
      .ok ⟨intRange start (pagEnd p o m start),
           if pagEnd p o m start < m then goItoa (pagEnd p o m start) else ""⟩ := by
  rw [paginate]
  dsimp only
  rw [if_neg (by omega), if_neg (by omega), htd]

theorem collectPages_join (p o m : Int) (hp : 0 ≤ p) (ho : 0 ≤ o)
    (hm32 : m ≤ 2 ^ 31 - 1) (heff : m + effSize p o ≤ 2 ^ 31 - 1) :
    ∀ (fuel : Nat) (start : Int) (tok : String), 0 ≤ start → start < m →
      (m - start).toNat ≤ fuel → tokenDecode tok m = .ok start →
      ∃ pages, collectPages p o m fuel tok = some pages ∧ pages.join = intRange start m := by
  intro fuel
  induction fuel with
  | zero => intro start tok h0 h1 hf htd; exact absurd hf (by omega)
  | succ fuel ih =>
    intro start tok h0 h1 hf htd
    have he : 0 ≤ effSize p o := effSize_nonneg p o hp ho
    have hend := pagEnd_spec p o m start hp ho h0 (by omega)
    simp only [collectPages]
    rw [paginate_ok p o m tok start hp ho (by omega) htd]
    dsimp only
    by_cases hlt : pagEnd p o m start < m
    · have hgt : start < pagEnd p o m start := by
        rw [hend] at hlt ⊢; split_ifs at hlt ⊢ <;> omega
      have hle : pagEnd p o m start ≤ m := by
        rw [hend]; split_ifs <;> omega
      rw [if_pos hlt]
      rw [if_neg (goItoa_ne_empty (pagEnd p o m start))]
      obtain ⟨pages, hcp, hjoin⟩ :=
        ih (pagEnd p o m start) (goItoa (pagEnd p o m start)) (by omega) hlt (by omega)
          (tokenDecode_goItoa (pagEnd p o m start) m (by omega) hle hm32)
      refine ⟨intRange start (pagEnd p o m start) :: pages, ?_, ?_⟩
      · rw [hcp]; rfl
      · simp only [List.join_cons, hjoin]
        exact intRange_append start (pagEnd p o m start) m (by omega) hle
    · have hEm : pagEnd p o m start = m := by
        rw [hend] at hlt ⊢; split_ifs at hlt ⊢ <;> omega
      rw [hEm, if_neg (by omega : ¬ m < m), if_pos rfl]
      exact ⟨[intRange start m], rfl, by simp⟩

/-- C4 (amended): for nonnegative sizes and `0 < maxResponse`, provided the
window arithmetic cannot overflow `int32` (`maxResponse + effectiveSize ≤
2^31 - 1`), driving `Pagination` from the empty page token and feeding back
each returned `nextPageToken` until it is empty yields a sequence of pages
whose concatenation is exactly the integer range `[0, maxResponse)`:
a partition with no overlaps and no gaps. -/
theorem paginate_partition (p o m : Int) (hp : 0 ≤ p) (ho : 0 ≤ o) (hm : 0 < m)
    (hm32 : m ≤ 2 ^ 31 - 1) (heff : m + effSize p o ≤ 2 ^ 31 - 1) :
    ∃ pages, collectPages p o m (m.toNat + 1) "" = some pages ∧
      pages.join = intRange 0 m :=
  collectPages_join p o m hp ho hm32 heff (m.toNat + 1) 0 "" le_rfl hm (by omega)
    (tokenDecode_empty m)

/-- Witness for `paginate_partition` at the spec example `maxResponse = 10`,
`pageSize = 3`: the pages are `[0,1,2], [3,4,5], [6,7,8], [9]`. -/
theorem paginate_partition_witness :
    ∃ pages, collectPages 3 0 10 11 "" = some pages ∧
      pages.join = intRange 0 10 :=
  paginate_partition 3 0 10 (by decide) (by decide) (by decide) (by decide) (by decide)

/-- C4 counterexample: with `maxResponse = 2147483647` and `pageSize =
2147483646` (both valid `int32` inputs), the first call issues token
`"2147483646"`, the follow-up call wraps around `int32`, returns an *empty*
page (the element `2147483646` is never delivered) with `nextPageToken`
`"-4"`, and the next call fails — the traversal is not a partition of
`[0, maxResponse)`. -/
theorem paginate_partition_cex :
    (paginate ⟨2147483646, 0, "", 2147483647⟩).toOption.map PaginationResponse.nextPageToken
      = some "2147483646" ∧
    paginate ⟨2147483646, 0, "2147483646", 2147483647⟩ = .ok ⟨[], "-4"⟩ ∧
    paginate ⟨2147483646, 0, "-4", 2147483647⟩ = .error (tokenErr "-4") :=
  ⟨rfl, rfl, rfl⟩

/-- C2 (amended): for every valid input (`pageSize ≥ 0`, `pageSizeOverride ≥
0`, valid page token, `0 < maxResponse`, all `int32`), provided `start +
effectiveSize ≤ 2^31 - 1` (no `int32` overflow), the returned items are
exactly `[start, end)` with `end = min(start + size, maxResponse)` where
`size` is the override if positive else the page size, with `0` meaning
`maxResponse`; the next token is the decimal string of `end` when `end <
maxResponse` and empty otherwise; and `0 ≤ start ≤ end ≤ maxResponse`. -/
theorem paginate_valid_window (p o m start : Int) (tok : String)
    (hp : 0 ≤ p) (ho : 0 ≤ o) (hm : 0 < m) (hm32 : m ≤ 2 ^ 31 - 1)
    (htok : (tok = "" ∧ start = 0) ∨ (goAtoi tok = some start ∧ 0 ≤ start ∧ start ≤ m))
    (hnoov : start + effSize p o ≤ 2 ^ 31 - 1) :
    0 ≤ start ∧
    start ≤ min (start + (if effSize p o = 0 then m else effSize p o)) m ∧
    min (start + (if effSize p o = 0 then m else effSize p o)) m ≤ m ∧
    paginate ⟨p, o, tok, m⟩ =
      .ok ⟨intRange start (min (start + (if effSize p o = 0 then m else effSize p o)) m),
           if min (start + (if effSize p o = 0 then m else effSize p o)) m < m
           then goItoa (min (start + (if effSize p o = 0 then m else effSize p o)) m)
           else ""⟩ := by
  have he : 0 ≤ effSize p o := effSize_nonneg p o hp ho
  have h0 : 0 ≤ start ∧ start ≤ m := by
    rcases htok with ⟨h1, h2⟩ | ⟨h1, h2, h3⟩
    · constructor <;> omega
    · exact ⟨h2, h3⟩
  have htd : tokenDecode tok m = .ok start := by
    rcases htok with ⟨h1, h2⟩ | ⟨h1, h2, h3⟩
    · subst h1; subst h2; exact tokenDecode_empty m
    · have hne : tok ≠ "" := by
        intro hc; rw [hc] at h1; exact Option.noConfusion h1
      rw [tokenDecode, if_neg hne]
      simp only [h1]
      rw [wrap32_eq_self start (by omega) (by omega), if_neg (by omega)]
  have hE := pagEnd_spec p o m start hp ho h0.1 hnoov
  have hEeq : pagEnd p o m start =
      min (start + (if effSize p o = 0 then m else effSize p o)) m := by
    rw [hE]; split_ifs <;> omega
  refine ⟨h0.1, ?_, ?_, ?_⟩
  · rw [← hEeq, hE]; split_ifs <;> omega
  · rw [← hEeq, hE]; split_ifs <;> omega
  · rw [← hEeq]
    exact paginate_ok p o m tok start hp ho hm htd

/-- Witness for `paginate_valid_window`: token `"3"`, page size 3,
`maxResponse = 10` yields items `[3,4,5]` and next token `"6"`. -/
theorem paginate_valid_window_witness :
    0 ≤ (3 : Int) ∧
    (3 : Int) ≤ min (3 + (if effSize 3 0 = 0 then 10 else effSize 3 0)) 10 ∧
    min (3 + (if effSize 3 0 = 0 then 10 else effSize 3 0)) 10 ≤ 10 ∧
    paginate ⟨3, 0, "3", 10⟩ =
      .ok ⟨intRange 3 (min (3 + (if effSize 3 0 = 0 then 10 else effSize 3 0)) 10),
           if min (3 + (if effSize 3 0 = 0 then 10 else effSize 3 0)) 10 < 10
           then goItoa (min (3 + (if effSize 3 0 = 0 then 10 else effSize 3 0)) 10)
           else ""⟩ :=
  paginate_valid_window 3 0 10 3 "3" (by decide) (by decide) (by decide) (by decide)
    (Or.inr ⟨by decide, by decide, by decide⟩) (by decide)

/-- C2 counterexample: the valid input `pageSize = 2147483647`, token `"2"`,
`maxResponse = 2147483647` makes `start + actualSize` overflow `int32`: the
code returns an empty page and next token `"-2147483647"`, while the claim
requires the non-empty page `[2, 2147483647)` and an empty next token. -/
theorem paginate_valid_window_cex :
    paginate ⟨2147483647, 0, "2", 2147483647⟩ = .ok ⟨[], "-2147483647"⟩ ∧
    intRange 2 (min (2 + 2147483647) 2147483647) ≠ [] ∧
    "-2147483647" ≠ "" :=
  ⟨rfl, intRange_ne_nil 2 _ (by omega), by decide⟩

/-- C3 (amended): for a non-empty page token, the call fails with the
invalid-argument error naming the token exactly when the token does not
parse as an integer or its *32-bit truncation* `int32(t)` falls outside
`[0, maxResponse]`; otherwise the truncated value is used as the window
start.  (The truncation is the amendment: a token whose value exceeds
`int32` range, e.g. `2^32`, is accepted with the wrapped value as start.) -/
theorem paginate_token_validation (p o m : Int) (tok : String)
    (hp : 0 ≤ p) (ho : 0 ≤ o) (hm : 0 < m) (hne : tok ≠ "") :
    (goAtoi tok = none → paginate ⟨p, o, tok, m⟩ = .error (tokenErr tok)) ∧
    (∀ t, goAtoi tok = some t → (wrap32 t < 0 ∨ m < wrap32 t) →
        paginate ⟨p, o, tok, m⟩ = .error (tokenErr tok)) ∧
    (∀ t, goAtoi tok = some t → 0 ≤ wrap32 t → wrap32 t ≤ m →
        paginate ⟨p, o, tok, m⟩ =
          .ok ⟨intRange (wrap32 t) (pagEnd p o m (wrap32 t)),
               if pagEnd p o m (wrap32 t) < m then goItoa (pagEnd p o m (wrap32 t))
               else ""⟩) := by
  refine ⟨?_, ?_, ?_⟩
  · intro hnone
    rw [paginate]; dsimp only
    rw [if_neg (by omega), if_neg (by omega), tokenDecode, if_neg hne]
    simp only [hnone]
  · intro t ht hrange
    rw [paginate]; dsimp only
    rw [if_neg (by omega), if_neg (by omega), tokenDecode, if_neg hne]
    simp only [ht]
    rw [if_pos hrange]
  · intro t ht h1 h2
    have htd : tokenDecode tok m = .ok (wrap32 t) := by
      rw [tokenDecode, if_neg hne]
      simp only [ht]
      rw [if_neg (by omega)]
    exact paginate_ok p o m tok (wrap32 t) hp ho hm htd

/-- Witness for `paginate_token_validation`: the non-numeric token `"abc"`
is rejected with the invalid-argument error naming it. -/
theorem paginate_token_validation_witness :
    paginate ⟨0, 0, "abc", 10⟩ = .error (tokenErr "abc") :=
  (paginate_token_validation 0 0 10 "abc" (by decide) (by decide) (by decide)
    (by decide)).1 (by decide)

/-- C3 counterexample: the token `"4294967296"` (`= 2^32`) parses to a value
greater than `maxResponse = 10`, so the claim demands an invalid-argument
failure, but the code truncates it to `int32(2^32) = 0` and succeeds with
window start `0`. -/
theorem paginate_token_cex :
    goAtoi "4294967296" = some 4294967296 ∧ (10 : Int) < 4294967296 ∧
    paginate ⟨1, 0, "4294967296", 10⟩ = .ok ⟨[0], "1"⟩ :=
  ⟨by decide, by decide, rfl⟩

/-! ## The retry sequencer: C1, C5, C6 -/

theorem retryId_ne_empty (now : Int) : retryId now ≠ "" := by
  intro h
  have hd := congrArg String.data h
  rw [retryId, String.data_append] at hd
  have h2 := congrArg List.length hd
  rw [List.length_append] at h2
  have h3 : ("retry-test-" : String).data.length = 11 := rfl
  have h4 : ("" : String).data.length = 0 := rfl
  omega

/-- C1: after `SetupRetry([e1, e2, OK])`, three `Retry(id)` calls return the
first queued error, then the second, then success, and a fourth call fails
with NOT_FOUND: each call consumes exactly one queued outcome, in insertion
order, and the caller always sees the popped outcome's error. -/
theorem retry_error_error_ok (st0 : RetryStore) (now : Int) (e1 e2 okS : RStatus)
    (h1 : e1.code ≠ 0) (h2 : e2.code ≠ 0) (h3 : okS.code = 0) :
    (setupRetry st0 now [e1, e2, okS]).2 = .ok (retryId now) ∧
    retrySeq (setupRetry st0 now [e1, e2, okS]).1 (retryId now) 4 =
      [.error (.injected e1), .error (.injected e2), .ok (),
       .error (.notFound ("Retry with Id: " ++ retryId now ++ " was not found."))] := by
  have hid := retryId_ne_empty now
  rw [setupRetry, if_neg (by simp)]
  refine ⟨rfl, ?_⟩
  dsimp only
  simp [retrySeq, retryStep, hid, h1, h2, h3]

/-- Witness for `retry_error_error_ok` with outcomes
`[code 2, code 3, code 0 (OK)]` on the empty table. -/
theorem retry_error_error_ok_witness :
    (setupRetry emptyStore 0 [⟨2, "a"⟩, ⟨3, "b"⟩, ⟨0, ""⟩]).2 = .ok (retryId 0) ∧
    retrySeq (setupRetry emptyStore 0 [⟨2, "a"⟩, ⟨3, "b"⟩, ⟨0, ""⟩]).1 (retryId 0) 4 =
      [.error (.injected ⟨2, "a"⟩), .error (.injected ⟨3, "b"⟩), .ok (),
       .error (.notFound ("Retry with Id: " ++ retryId 0 ++ " was not found."))] :=
  retry_error_error_ok emptyStore 0 ⟨2, "a"⟩ ⟨3, "b"⟩ ⟨0, ""⟩ (by decide) (by decide)
    (by decide)

theorem StoreInv_setup (st : RetryStore) (now : Int) (resps : List RStatus)
    (h : StoreInv st) : StoreInv (setupRetry st now resps).1 := by
  intro id q hq
  rw [setupRetry] at hq
  split_ifs at hq with hr
  · exact h id q hq
  · dsimp only at hq
    by_cases hid : id = retryId now
    · rw [if_pos hid] at hq
      injection hq with hq2
      intro hc
      rw [hc] at hq2
      exact hr hq2
    · rw [if_neg hid] at hq
      exact h id q hq

theorem StoreInv_retry (st : RetryStore) (id0 : String) (h : StoreInv st) :
    StoreInv (retryStep st id0).1 := by
  intro id q hq
  rw [retryStep] at hq
  split_ifs at hq with hempty
  · exact h id q hq
  · rcases hL : st id0 with _ | ⟨_ | ⟨r, rest⟩⟩ <;> rw [hL] at hq <;> dsimp only at hq
    · exact h id q hq
    · exact h id q hq
    · split_ifs at hq with hc hrest
      · dsimp only at hq
        by_cases hid : id = id0
        · rw [if_pos hid] at hq
          exact Option.noConfusion hq
        · rw [if_neg hid] at hq
          exact h id q hq
      · dsimp only at hq
        by_cases hid : id = id0
        · rw [if_pos hid] at hq
          exact Option.noConfusion hq
        · rw [if_neg hid] at hq
          exact h id q hq
      · dsimp only at hq
        by_cases hid : id = id0
        · rw [if_pos hid] at hq
          injection hq with hq2
          intro hcq
          rw [hcq] at hq2
          exact hrest hq2
        · rw [if_neg hid] at hq
          exact h id q hq

/-- C5: in every table reachable by any sequence of `SetupRetry` and `Retry`
calls, an id is present if and only if its queue holds at least one
unconsumed outcome: `SetupRetry` only stores non-empty lists and `Retry`
deletes the entry exactly when an OK outcome is consumed or the last queued
outcome is popped, so no reachable table maps an id to an empty queue. -/
theorem retry_store_invariant (st : RetryStore) (h : Reachable st) : StoreInv st := by
  induction h with
  | init => intro id q hq; exact Option.noConfusion hq
  | setup now resps hst ih => exact StoreInv_setup _ now resps ih
  | retry id hst ih => exact StoreInv_retry _ id ih

/-- Witness for `retry_store_invariant` on the reachable table produced by
one `SetupRetry` call. -/
theorem retry_store_invariant_witness :
    (setupRetry emptyStore 0 [⟨2, "x"⟩]).1 "retry-test-0" ≠ some [] :=
  fun hc =>
    retry_store_invariant (setupRetry emptyStore 0 [⟨2, "x"⟩]).1
      (Reachable.setup 0 [⟨2, "x"⟩] Reachable.init) "retry-test-0" [] hc rfl

/-- C6 counterexample: two `SetupRetry` calls with the same second-resolution
timestamp produce the *same* id `"retry-test-5"`, and the second call
silently overwrites the still-live queue of the first. -/
theorem setupRetry_collision_cex :
    (setupRetry emptyStore 5 [⟨2, "a"⟩, ⟨2, "b"⟩]).2 = .ok "retry-test-5" ∧
    (setupRetry emptyStore 5 [⟨2, "a"⟩, ⟨2, "b"⟩]).1 "retry-test-5" =
      some [⟨2, "a"⟩, ⟨2, "b"⟩] ∧
    (setupRetry (setupRetry emptyStore 5 [⟨2, "a"⟩, ⟨2, "b"⟩]).1 5 [⟨7, "c"⟩]).2 =
      .ok "retry-test-5" ∧
    (setupRetry (setupRetry emptyStore 5 [⟨2, "a"⟩, ⟨2, "b"⟩]).1 5 [⟨7, "c"⟩]).1
      "retry-test-5" = some [⟨7, "c"⟩] :=
  ⟨rfl, rfl, rfl, rfl⟩

/-- C6 (amended): `SetupRetry` stores the supplied outcome list verbatim under
the id `"retry-test-<unix-seconds>"`; calls with *distinct* creation
timestamps receive distinct ids, but two calls within the same second collide
on the same id and the later call silently overwrites the earlier queue. -/
theorem setupRetry_fresh (now1 now2 : Int) (st : RetryStore) (resps : List RStatus)
    (hne : now1 ≠ now2) (ha : -(2 ^ 63) ≤ now1) (hb : now1 ≤ int64Max)
    (hc : -(2 ^ 63) ≤ now2) (hd : now2 ≤ int64Max) (hr : resps ≠ []) :
    retryId now1 ≠ retryId now2 ∧
    (setupRetry st now1 resps).2 = .ok (retryId now1) ∧
    (setupRetry st now1 resps).1 (retryId now1) = some resps := by
  refine ⟨?_, ?_, ?_⟩
  · intro h
    apply hne
    apply goItoa_inj now1 now2 ha hb hc hd
    have hdt := congrArg String.data h
    rw [retryId, retryId, String.data_append, String.data_append] at hdt
    exact String.ext (List.append_cancel_left hdt)
  · rw [setupRetry, if_neg hr]
  · rw [setupRetry, if_neg hr]
    dsimp only
    rw [if_pos rfl]

/-- Witness for `setupRetry_fresh` at timestamps 0 and 1. -/
theorem setupRetry_fresh_witness :
    retryId 0 ≠ retryId 1 ∧
    (setupRetry emptyStore 0 [⟨2, "x"⟩]).2 = .ok (retryId 0) ∧
    (setupRetry emptyStore 0 [⟨2, "x"⟩]).1 (retryId 0) = some [⟨2, "x"⟩] :=
  setupRetry_fresh 0 1 emptyStore [⟨2, "x"⟩] (by decide) (by decide) (by decide)
    (by decide) (by decide) (by decide)

/-! ## The streaming protocols and the timeout simulator: C7, C8, C9, C10 -/

theorem collectLoop_no_error (msgs : List EchoMsg) (h : ∀ x ∈ msgs, x.error = none) :
    ∀ resp : List String,
      collectLoop msgs resp =
        .ok (String.intercalate " "
          (resp ++ (msgs.map EchoMsg.content).filter (fun c => c ≠ ""))) := by
  induction msgs with
  | nil => intro resp; simp [collectLoop]
  | cons w rest ih =>
    intro resp
    have hw : w.error = none := h w (List.mem_cons_self w rest)
    have hrest : ∀ x ∈ rest, x.error = none := fun x hx => h x (List.mem_cons_of_mem w hx)
    rw [collectLoop, hw]
    dsimp only [goErrorProto]
    by_cases hc : w.content = ""
    · rw [if_neg (by simp [hc]), ih hrest]
      simp [hc]
    · rw [if_pos hc, ih hrest]
      simp [hc, List.append_assoc]

/-- C7: when no received message carries an error descriptor, `Collect`
returns the non-empty content fields joined with single spaces in arrival
order, skipping empty contents. -/
theorem collect_joins (msgs : List EchoMsg) (h : ∀ x ∈ msgs, x.error = none) :
    collect msgs =
      .ok (String.intercalate " " ((msgs.map EchoMsg.content).filter (fun c => c ≠ ""))) := by
  rw [collect, collectLoop_no_error msgs h []]
  rfl

/-- Witness for `collect_joins` at the spec example: contents `"a"`, `"b"`,
`""`, `"c"` yield `"a b c"`. -/
theorem collect_joins_witness :
    collect [⟨"a", none⟩, ⟨"b", none⟩, ⟨"", none⟩, ⟨"c", none⟩] = .ok "a b c" :=
  (collect_joins [⟨"a", none⟩, ⟨"b", none⟩, ⟨"", none⟩, ⟨"c", none⟩]
    (by decide)).trans (by rfl)

theorem collectLoop_aborts (pre : List EchoMsg) (w : EchoMsg) (post : List EchoMsg)
    (e : RStatus) (hpre : ∀ x ∈ pre, goErrorProto x.error = none)
    (hw : w.error = some e) (he : e.code ≠ 0) :
    ∀ resp : List String, collectLoop (pre ++ w :: post) resp = .error e := by
  induction pre with
  | nil =>
    intro resp
    rw [List.nil_append, collectLoop, hw]
    dsimp only [goErrorProto]
    rw [if_neg he]
  | cons x rest ih =>
    intro resp
    have hx : goErrorProto x.error = none := hpre x (List.mem_cons_self x rest)
    have hrest : ∀ y ∈ rest, goErrorProto y.error = none :=
      fun y hy => hpre y (List.mem_cons_of_mem x hy)
    rw [List.cons_append, collectLoop, hx]
    exact ih hrest _

/-- C8: if a message received by `Collect` carries a non-OK error descriptor,
the call returns exactly that error: the messages after it do not influence
the result and the content accumulated before it is discarded — for any list
of later messages and any accumulated prefix, the outcome is the same
injected error, never a success carrying the partial accumulation. -/
theorem collect_aborts (pre : List EchoMsg) (w : EchoMsg) (post : List EchoMsg)
    (e : RStatus) (hpre : ∀ x ∈ pre, goErrorProto x.error = none)
    (hw : w.error = some e) (he : e.code ≠ 0) :
    collect (pre ++ w :: post) = .error e :=
  collectLoop_aborts pre w post e hpre hw he []

/-- Witness for `collect_aborts`: `"a"` followed by an injected error aborts
with that error; the partial `"a"` is never returned. -/
theorem collect_aborts_witness :
    collect [⟨"a", none⟩, ⟨"x", some ⟨2, "boom"⟩⟩, ⟨"z", none⟩] = .error ⟨2, "boom"⟩ :=
  collect_aborts [⟨"a", none⟩] ⟨"x", some ⟨2, "boom"⟩⟩ [⟨"z", none⟩] ⟨2, "boom"⟩
    (by decide) rfl (by decide)

theorem expandLoop_eq_map (ws : List String) : expandLoop ws = ws.map StreamEvent.sent := by
  induction ws with
  | nil => rfl
  | cons w rest ih => rw [expandLoop, ih, List.map_cons]

/-- C9: `Expand` sends exactly one message per white-space-separated word of
the content, in order; a request carrying a non-OK error descriptor closes
the stream with that error only *after* all word messages have been sent,
and a request without an error descriptor closes cleanly after the last
word. -/
theorem expand_spec (content : String) (err : Option RStatus) :
    (err = none →
      expand ⟨content, err⟩ = (goFields content).map StreamEvent.sent ++ [.closeOk]) ∧
    (∀ e, err = some e → e.code ≠ 0 →
      expand ⟨content, err⟩ = (goFields content).map StreamEvent.sent ++ [.closeErr e]) := by
  constructor
  · intro h
    rw [expand, expandLoop_eq_map]
    subst h
    rfl
  · intro e h hcode
    rw [expand, expandLoop_eq_map]
    subst h
    dsimp only [goErrorProto]
    rw [if_neg hcode]

/-- Witness for `expand_spec`: content `"hello world"` with an injected error
produces `sent "hello"`, `sent "world"`, then the error close. -/
theorem expand_spec_witness :
    expand ⟨"hello world", some ⟨13, "fail"⟩⟩ =
      [.sent "hello", .sent "world", .closeErr ⟨13, "fail"⟩] :=
  ((expand_spec "hello world" (some ⟨13, "fail"⟩)).2 ⟨13, "fail"⟩ rfl
    (by decide)).trans (by decide)

/-- C10: when the caller-supplied response delay cannot be parsed as a
duration, `Timeout` discards the parse failure, sleeps for the zero
duration, and still returns the caller-specified success payload or injected
error exactly as if a zero delay had been requested. -/
theorem timeout_parse_failure (req : TimeoutRequest) (msg : String)
    (h : goDuration req.responseDelay = .error msg) :
    (timeout req).1 = 0 ∧
    timeout req = timeout { req with responseDelay := some ⟨0, 0⟩ } := by
  constructor
  · rw [timeout, h]
  · rw [timeout, timeout, h]
    rfl

/-- Witness for `timeout_parse_failure`: an absent delay (`nil Duration`)
sleeps zero and still surfaces the injected error. -/
theorem timeout_parse_failure_witness :
    (timeout ⟨none, some ⟨2, "boom"⟩, none⟩).1 = 0 ∧
    timeout ⟨none, some ⟨2, "boom"⟩, none⟩ =
      timeout { responseDelay := some ⟨0, 0⟩, error := some ⟨2, "boom"⟩, success := none } :=
  timeout_parse_failure ⟨none, some ⟨2, "boom"⟩, none⟩ "duration: nil Duration" rfl

end Showcase
